import Mathlib

/-
Formal model of the mbed-targets target-attribute inheritance resolver.

The Python sources embedded here are:
  mbed_targets/_internal/targets_json_parsers/overriding_attribute_parser.py
  mbed_targets/_internal/target_attributes.py
  mbed_targets/mbed_targets.py, mbed_targets/mbed_target.py,
  mbed_targets/mbed_target_build_attributes.py, mbed_targets/get_build_attributes.py
The accumulating attribute parser module is absent from the source tree
(only its unit tests and its importers are present); its definitions are
modelled from the specification and are marked as such in their doc comments.

Python dictionaries are modelled as association lists (insertion order kept,
keys unique in well-formed inputs); exceptions are modelled with Except; the
possibly non-terminating work-queue loops take a fuel argument, with fuel
exhaustion standing for divergence.
-/

namespace MbedTargets

/-- JSON-ish attribute values as they occur in a targets.json document:
strings, booleans, numbers and lists of strings.  A Python set of strings
(the labels entry of the final result) is kept as a separate constructor. -/
inductive AttrValue where
  | str (s : String)
  | boolean (b : Bool)
  | num (n : Int)
  | list (xs : List String)
  | strset (xs : List String)
deriving DecidableEq

/-- A target definition: a Python dict from attribute name to value. -/
abbrev Dict := List (String × AttrValue)

/-- The full parsed targets.json document: target name to definition. -/
abbrev Catalog := List (String × Dict)

/-- Python dict lookup d[k] / d.get(k): the entry for key k (keys are unique
in a Python dict, so the first entry). -/
def dlookup {α : Type} : List (String × α) → String → Option α
  | [], _ => none
  | (k2, v) :: rest, k => if k2 = k then some v else dlookup rest k

/-- Left-biased choice on options, used to state lookup lemmas. -/
def opt_or {α : Type} : Option α → Option α → Option α
  | some v, _ => some v
  | none, o => o

/-- Python truthiness of an attribute value (used for the public flag and
the core attribute). -/
def pyTruthy : AttrValue → Bool
  | .str s => !(s == "")
  | .boolean b => b
  | .num n => !(n == 0)
  | .list xs => !xs.isEmpty
  | .strset xs => !xs.isEmpty

/-- Reads current_target.get with the key inherits and the default empty
list.  Per the data model the inherits value is always a list of parent
names; a value of another shape is treated as absent. -/
def getInherits (d : Dict) : List String :=
  match dlookup d "inherits" with
  | some (.list xs) => xs
  | _ => []

/-- Visibility check, as in the line
if not all_targets_data[target_name].get with key public, default True. -/
def isPublic (d : Dict) : Bool :=
  match dlookup d "public" with
  | some v => pyTruthy v
  | none => true

/-- Error kinds raised by the resolver.  keyMiss is a plain Python KeyError
from an unguarded dictionary lookup; notFound is TargetAttributesNotFoundError
(carrying the target name); buildAttributesError is the wrapping
TargetBuildAttributesError; fuelOut stands for a non-terminating walk. -/
inductive Err where
  | keyMiss (k : String)
  | notFound (name : String)
  | buildAttributesError (e : Err)
  | fuelOut
deriving DecidableEq

/-- One loop iteration of the parent push in _targets_override_hierarchy:
for parent_target in reversed inherits, still_to_visit gets
all_targets_data[parent_target] appended on the left.  The argument list is
already reversed, each name is looked up in turn (KeyError on a miss) and its
definition is pushed onto the front of the queue. -/
def push_front_rev (catalog : Catalog) : List String → List Dict → Except Err (List Dict)
  | [], q => .ok q
  | p :: rest, q =>
    match dlookup catalog p with
    | none => .error (.keyMiss p)
    | some d => push_front_rev catalog rest (d :: q)

/-- The work-queue loop of _targets_override_hierarchy (depth-first): pop the
front of the queue, append it to the output, push the definitions of its own
parents onto the front (first-declared parent ends up foremost), repeat. -/
def targets_override_hierarchy_walk (catalog : Catalog) : Nat → List Dict → Except Err (List Dict)
  | _, [] => .ok []
  | 0, _ :: _ => .error .fuelOut
  | fuel + 1, current :: rest =>
    match push_front_rev catalog (getInherits current).reverse rest with
    | .error e => .error e
    | .ok q2 =>
      match targets_override_hierarchy_walk catalog fuel q2 with
      | .error e => .error e
      | .ok tail => .ok (current :: tail)

/-- _targets_override_hierarchy: seed the queue with
all_targets_data[target_name] (an unguarded lookup) and run the loop. -/
def targets_override_hierarchy (catalog : Catalog) (name : String) (fuel : Nat) :
    Except Err (List Dict) :=
  match dlookup catalog name with
  | none => .error (.keyMiss name)
  | some d => targets_override_hierarchy_walk catalog fuel [d]

/-- Modelled from the spec: the breadth-first parent push of the accumulate
walker (the accumulating attribute parser module is absent from the source
tree).  Parents are looked up in declared order and appended to the back of
the queue. -/
def push_back (catalog : Catalog) : List String → List Dict → Except Err (List Dict)
  | [], q => .ok q
  | p :: rest, q =>
    match dlookup catalog p with
    | none => .error (.keyMiss p)
    | some d => push_back catalog rest (q ++ [d])

/-- Modelled from the spec: the work-queue loop of
_targets_accumulate_hierarchy, a breadth-first traversal visiting the target,
then its direct parents in declared order, then parents of parents, level by
level. -/
def targets_accumulate_hierarchy_walk (catalog : Catalog) : Nat → List Dict → Except Err (List Dict)
  | _, [] => .ok []
  | 0, _ :: _ => .error .fuelOut
  | fuel + 1, current :: rest =>
    match push_back catalog (getInherits current) rest with
    | .error e => .error e
    | .ok q2 =>
      match targets_accumulate_hierarchy_walk catalog fuel q2 with
      | .error e => .error e
      | .ok tail => .ok (current :: tail)

/-- Modelled from the spec: _targets_accumulate_hierarchy seeds the queue
with the definition of the named target and runs the breadth-first loop. -/
def targets_accumulate_hierarchy (catalog : Catalog) (name : String) (fuel : Nat) :
    Except Err (List Dict) :=
  match dlookup catalog name with
  | none => .error (.keyMiss name)
  | some d => targets_accumulate_hierarchy_walk catalog fuel [d]

/-- Modelled from the spec: the set of accumulating attribute names is a
fixed configuration constant injected into the mergers; the concrete constant
lives in the accumulating attribute parser module, which is absent from the
source tree.  The names given as examples in the data model section are used. -/
def ACCUMULATING_ATTRIBUTES : List String :=
  ["features", "components", "device_has", "extra_labels"]

/-- Modelled from the spec: for each accumulating attribute name X the two
sibling modifier keys X_add and X_remove also belong to the accumulating
family (ALL_ACCUMULATING_ATTRIBUTES in the absent module), parameterised by
the injected list of base names. -/
def all_accumulating_attributes (acc : List String) : List String :=
  acc ++ acc.map (fun a => a ++ "_add") ++ acc.map (fun a => a ++ "_remove")

/-- NON_OVERRIDING_ATTRIBUTES, which is ALL_ACCUMULATING_ATTRIBUTES with the
keys public and inherits appended. -/
def non_overriding_attributes (acc : List String) : List String :=
  all_accumulating_attributes acc ++ ["public", "inherits"]

/-- Python dict.pop of a single key (the dict invariantly has unique keys,
so removing every entry with that key is the same operation). -/
def dict_pop (d : Dict) (k : String) : Dict :=
  d.filter (fun p => p.1 ≠ k)

/-- The Python double-splat merge of two dicts: entries of x in order, with
the value replaced by the y value when y also has the key, followed by the
entries of y whose key is not in x. -/
def dict_merge (x y : Dict) : Dict :=
  x.map (fun p => (p.1, ((dlookup y p.1).getD p.2))) ++
    y.filter (fun p => (dlookup x p.1).isNone)

/-- _remove_unwanted_attributes: pop every key of NON_OVERRIDING_ATTRIBUTES
from a copy of the dict. -/
def remove_unwanted_attributes (acc : List String) (d : Dict) : Dict :=
  (non_overriding_attributes acc).foldl dict_pop d

/-- _determine_overridden_attributes: reduce the reversed override order with
the double-splat merge (most distant ancestor first, the target itself last,
later dicts overriding shared keys), then strip the non-overriding keys. -/
def determine_overridden_attributes (acc : List String) (order : List Dict) : Dict :=
  remove_unwanted_attributes acc (order.reverse.foldl dict_merge [])

/-- get_overriding_attributes_for_target: walk the override hierarchy and
merge it down. -/
def get_overriding_attributes_for_target (acc : List String) (catalog : Catalog)
    (name : String) (fuel : Nat) : Except Err Dict :=
  match targets_override_hierarchy catalog name fuel with
  | .error e => .error e
  | .ok order => .ok (determine_overridden_attributes acc order)

/-- _extract_target_labels: start from the singleton of the target name and
add every entry of the inherits list of every definition in the hierarchy
order (a Python set, modelled as a duplicate-free list). -/
def set_insert (s : List String) (x : String) : List String :=
  if x ∈ s then s else s ++ [x]

/-- Python set.union, folding the second operand into the first. -/
def set_union (s t : List String) : List String :=
  t.foldl set_insert s

/-- _extract_target_labels over an override-order list. -/
def extract_target_labels (order : List Dict) (name : String) : List String :=
  order.foldl (fun labels d => (getInherits d).foldl set_insert labels) [name]

/-- get_labels_for_target: walk the override hierarchy and collect labels. -/
def get_labels_for_target (catalog : Catalog) (name : String) (fuel : Nat) :
    Except Err (List String) :=
  match targets_override_hierarchy catalog name fuel with
  | .error e => .error e
  | .ok order => .ok (extract_target_labels order name)

/-- Reads an attribute whose value is a list of strings; any other shape is
treated as absent (accumulating values are lists per the data model). -/
def get_list_val (d : Dict) (k : String) : Option (List String) :=
  match dlookup d k with
  | some (.list xs) => some xs
  | _ => none

/-- Modelled from the spec: the element matching rule of the accumulating
parser (_element_matches in the absent module): a remove entry r matches a
candidate element e iff e equals r exactly or e begins with r immediately
followed by an equals sign. -/
def element_matches (r e : String) : Bool :=
  e == r || (r ++ "=").data.isPrefixOf e.data

/-- Modelled from the spec, step 1 of the accumulating merge: the base value
of an accumulating attribute is the bare list found first in a single
left-to-right scan of the accumulate order. -/
def find_base (order : List Dict) (x : String) : Option (List String) :=
  order.findSome? (fun d => get_list_val d x)

/-- Modelled from the spec, step 2: the union of all elements of every
X_add list across the entire hierarchy. -/
def collect_adds (order : List Dict) (x : String) : List String :=
  (order.map (fun d => (get_list_val d (x ++ "_add")).getD [])).flatten

/-- Modelled from the spec, step 3: the union of all elements of every
X_remove list across the entire hierarchy. -/
def collect_removes (order : List Dict) (x : String) : List String :=
  (order.map (fun d => (get_list_val d (x ++ "_remove")).getD [])).flatten

/-- Modelled from the spec, step 4: the effective value is the base joined
with the adds, with every element matching any remove entry filtered out. -/
def effective_value (order : List Dict) (x : String) : List String :=
  ((find_base order x).getD [] ++ collect_adds order x).filter
    (fun e => !((collect_removes order x).any (fun r => element_matches r e)))

/-- Modelled from the spec: _determine_accumulated_attributes computes the
effective value of each accumulating attribute independently, omitting an
attribute entirely when it has no base and no adds anywhere in the
hierarchy. -/
def determine_accumulated_attributes (acc : List String) (order : List Dict) : Dict :=
  acc.filterMap (fun x =>
    if (find_base order x).isSome || !(collect_adds order x).isEmpty then
      some (x, AttrValue.list (effective_value order x))
    else none)

/-- Modelled from the spec: get_accumulating_attributes_for_target walks the
accumulate hierarchy and merges the accumulating attributes over it. -/
def get_accumulating_attributes_for_target (acc : List String) (catalog : Catalog)
    (name : String) (fuel : Nat) : Except Err Dict :=
  match targets_accumulate_hierarchy catalog name fuel with
  | .error e => .error e
  | .ok order => .ok (determine_accumulated_attributes acc order)

/-- _extract_target_attributes: raise TargetAttributesNotFoundError when the
name is absent from the document or its definition is not public, otherwise
merge the overriding attributes with the accumulated ones (dict.update, the
accumulated entries winning on shared keys). -/
def extract_target_attributes (acc : List String) (catalog : Catalog)
    (name : String) (fuel : Nat) : Except Err Dict :=
  match dlookup catalog name with
  | none => .error (.notFound name)
  | some d =>
    if isPublic d then
      match get_overriding_attributes_for_target acc catalog name fuel with
      | .error e => .error e
      | .ok ov =>
        match get_accumulating_attributes_for_target acc catalog name fuel with
        | .error e => .error e
        | .ok accd => .ok (dict_merge ov accd)
    else .error (.notFound name)

/-- Python dict item assignment d[k] = v: replace the value in place when
the key is present, append the entry otherwise. -/
def dict_set (d : Dict) (k : String) (v : AttrValue) : Dict :=
  if (dlookup d k).isSome then d.map (fun p => if p.1 = k then (k, v) else p)
  else d ++ [(k, v)]

/-- _extract_core_labels: when the core build attribute is truthy, look its
string up in the CORE_LABELS mapping of the bundled metadata file (the file
content is external data, passed here as the coreLabels parameter), with the
empty set as default; otherwise the empty set.  The core value is an
Optional[str] per its annotation; the CORE_LABELS keys are strings, so a
non-string core finds no entry. -/
def extract_core_labels (coreLabels : List (String × List String))
    (target_core : Option AttrValue) : List String :=
  match target_core with
  | some v =>
    if pyTruthy v then
      match v with
      | .str s => (dlookup coreLabels s).getD []
      | _ => []
    else []
  | none => []

/-- get_target_attributes: extract the flattened build attributes, then set
the labels entry to the hierarchy labels unioned with the core labels (the
reading and JSON-decoding of targets.json is input plumbing; the parsed
document is the catalog argument). -/
def get_target_attributes (acc : List String) (coreLabels : List (String × List String))
    (catalog : Catalog) (name : String) (fuel : Nat) : Except Err Dict :=
  match extract_target_attributes acc catalog name fuel with
  | .error e => .error e
  | .ok build =>
    match get_labels_for_target catalog name fuel with
    | .error e => .error e
    | .ok hlabels =>
      .ok (dict_set build "labels"
        (.strset (set_union hlabels (extract_core_labels coreLabels (dlookup build "core")))))

/-- Representation of the MbedTarget dataclass (the fields are plain data
from a database entry). -/
structure MbedTarget where
  board_type : String
  board_name : String
  product_code : String
  target_type : String
  slug : String
  build_variant : List String
  mbed_os_support : List String
  mbed_enabled : List String
deriving DecidableEq

/-- The exception wrapping done by the build-attribute callers: only
FileNotFoundError (input plumbing, not modelled) and TargetAttributesError
subclasses are caught and re-raised as TargetBuildAttributesError; a plain
KeyError escapes unwrapped. -/
def wrap_target_attr_errors (r : Except Err Dict) : Except Err Dict :=
  match r with
  | .error (.notFound s) => .error (.buildAttributesError (.notFound s))
  | other => other

/-- get_target_build_attributes of module mbed_targets.mbed_targets: resolves
with the board_name field of the given MbedTarget as the target name. -/
def get_target_build_attributes (acc : List String) (coreLabels : List (String × List String))
    (catalog : Catalog) (t : MbedTarget) (fuel : Nat) : Except Err Dict :=
  wrap_target_attr_errors (get_target_attributes acc coreLabels catalog t.board_name fuel)

/-- get_target_build_attributes of module mbed_targets.mbed_target: resolves
with the board_type field of the given MbedTarget as the target name. -/
def mbed_target_get_target_build_attributes (acc : List String)
    (coreLabels : List (String × List String)) (catalog : Catalog) (t : MbedTarget)
    (fuel : Nat) : Except Err Dict :=
  wrap_target_attr_errors (get_target_attributes acc coreLabels catalog t.board_type fuel)

/-- The attribute retrieval step of MbedTargetBuildAttributes.from_board_type:
resolve the given board type string against targets.json (the construction of
the frozen record from the returned mapping is not needed by any claim and is
not modelled). -/
def from_board_type (acc : List String) (coreLabels : List (String × List String))
    (catalog : Catalog) (board_type : String) (fuel : Nat) : Except Err Dict :=
  wrap_target_attr_errors (get_target_attributes acc coreLabels catalog board_type fuel)

/-- get_build_attributes_by_board_type of module mbed_targets.get_build_attributes:
locates targets.json through the Mbed program path (input plumbing, the parsed
catalog stands for it) and delegates to from_board_type. -/
def get_build_attributes_by_board_type (acc : List String)
    (coreLabels : List (String × List String)) (catalog : Catalog) (board_type : String)
    (fuel : Nat) : Except Err Dict :=
  from_board_type acc coreLabels catalog board_type fuel

/-- get_build_attributes_by_mbed_target: delegates with the board_type field
of the given MbedTarget. -/
def get_build_attributes_by_mbed_target (acc : List String)
    (coreLabels : List (String × List String)) (catalog : Catalog) (t : MbedTarget)
    (fuel : Nat) : Except Err Dict :=
  get_build_attributes_by_board_type acc coreLabels catalog t.board_type fuel

/-- One step of the inheritance relation of a catalog: b is a declared parent
of a. -/
def inherits_step (catalog : Catalog) (a b : String) : Prop :=
  ∃ d, dlookup catalog a = some d ∧ b ∈ getInherits d

/-- A diamond catalog: A inherits from C and D, both of which define k. -/
def diamond_catalog : Catalog :=
  [("A", [("inherits", AttrValue.list ["C", "D"])]),
   ("C", [("k", AttrValue.str "cval")]),
   ("D", [("k", AttrValue.str "dval")])]

/-- A one-target catalog whose definition carries an explicit public flag. -/
def public_catalog : Catalog :=
  [("A", [("public", AttrValue.boolean true), ("attr1", AttrValue.str "v")])]

/-- The literal accumulating example of the spec: D defines attr, C adds to
it, A removes from it. -/
def p3_catalog : Catalog :=
  [("D", [("attr", AttrValue.list ["1"])]),
   ("C", [("inherits", AttrValue.list ["D"]), ("attr_add", AttrValue.list ["2", "3"])]),
   ("A", [("inherits", AttrValue.list ["C"]), ("attr_remove", AttrValue.list ["2"])])]

/-- A linear chain A inherits B inherits C, every member defining k. -/
def chain_catalog : Catalog :=
  [("A", [("inherits", AttrValue.list ["B"]), ("k", AttrValue.str "aval")]),
   ("B", [("inherits", AttrValue.list ["C"]), ("k", AttrValue.str "bval")]),
   ("C", [("k", AttrValue.str "cval")])]

/-- A catalog with one private and one public target. -/
def private_catalog : Catalog :=
  [("Priv", [("public", AttrValue.boolean false), ("a", AttrValue.str "1")]),
   ("Pub", [("a", AttrValue.str "1")])]

/-- A one-target catalog whose definition sets a core. -/
def core_catalog : Catalog :=
  [("A", [("core", AttrValue.str "M4")])]

/-- A CORE_LABELS metadata mapping with one entry. -/
def core_labels_example : List (String × List String) :=
  [("M4", ["CORTEX_M4"])]

/-- A catalog whose only target inherits from a name that is not a key. -/
def dangling_catalog : Catalog :=
  [("A", [("inherits", AttrValue.list ["B"])])]

/-- An accumulate order of a single member whose base holds a key=value
element removed by its bare name. -/
def feature_order : List Dict :=
  [[("features", AttrValue.list ["FEATURE=1"]), ("features_remove", AttrValue.list ["FEATURE"])]]

/-- An accumulate order whose remove entry is a strict name prefix of the
base element, which must therefore survive. -/
def something_order : List Dict :=
  [[("features", AttrValue.list ["SOMETHING_ELSE"]), ("features_remove", AttrValue.list ["SOMETHING"])]]

/-- An MbedTarget whose board_type and board_name differ. -/
def t_example : MbedTarget :=
  ⟨"BT", "BN", "9999", "platform", "slug", [], [], []⟩

/-- A catalog keyed by the board_name of t_example, not by its board_type. -/
def bn_catalog : Catalog :=
  [("BN", [("a", AttrValue.str "1")])]

/-- The chain catalog extended with an entry that is shadowed by an earlier
equal key, so every lookup agrees with chain_catalog although the lists
differ. -/
def chain2_catalog : Catalog :=
  chain_catalog ++ [("A", [("shadowed", AttrValue.str "x")])]

theorem opt_or_none_right {α : Type} (o : Option α) : opt_or o none = o := by
  cases o <;> rfl

theorem opt_or_assoc {α : Type} (a b c : Option α) :
    opt_or (opt_or a b) c = opt_or a (opt_or b c) := by
  cases a <;> cases b <;> rfl

theorem dlookup_cons {α : Type} (a : String) (b : α) (rest : List (String × α)) (k : String) :
    dlookup ((a, b) :: rest) k = if a = k then some b else dlookup rest k := rfl

theorem dlookup_append {α : Type} (a b : List (String × α)) (k : String) :
    dlookup (a ++ b) k = opt_or (dlookup a k) (dlookup b k) := by
  induction a with
  | nil => rfl
  | cons p t ih =>
    obtain ⟨k2, v⟩ := p
    by_cases h : k2 = k
    · simp [dlookup, h, opt_or]
    · simp [dlookup, h, ih]

theorem findSome_cons {α β : Type} (f : α → Option β) (a : α) (l : List α) :
    (a :: l).findSome? f = opt_or (f a) (l.findSome? f) := by
  cases h : f a <;> simp [List.findSome?_cons, h, opt_or]

theorem findSome_append {α β : Type} (f : α → Option β) (a b : List α) :
    (a ++ b).findSome? f = opt_or (a.findSome? f) (b.findSome? f) := by
  induction a with
  | nil => rfl
  | cons x t ih => rw [List.cons_append, findSome_cons, findSome_cons, ih, opt_or_assoc]

theorem dlookup_merge_left (x y : Dict) (k : String) :
    dlookup (x.map (fun p => (p.1, ((dlookup y p.1).getD p.2)))) k
      = (dlookup x k).map (fun v => (dlookup y k).getD v) := by
  induction x with
  | nil => rfl
  | cons p t ih =>
    obtain ⟨k2, v⟩ := p
    by_cases h : k2 = k
    · subst h; simp [dlookup]
    · simp [dlookup, h, ih]

theorem dlookup_merge_right (x y : Dict) (k : String) :
    dlookup (y.filter (fun p => (dlookup x p.1).isNone)) k
      = if (dlookup x k).isNone then dlookup y k else none := by
  induction y with
  | nil => simp [dlookup]
  | cons p t ih =>
    obtain ⟨k2, v⟩ := p
    by_cases h : k2 = k
    · subst h
      cases hx : dlookup x k2 <;> simp [dlookup, List.filter, hx, ih]
    · cases hx2 : dlookup x k2 <;> simp [dlookup, List.filter, hx2, h, ih]

theorem dlookup_dict_merge (x y : Dict) (k : String) :
    dlookup (dict_merge x y) k = opt_or (dlookup y k) (dlookup x k) := by
  unfold dict_merge
  rw [dlookup_append, dlookup_merge_left, dlookup_merge_right]
  cases hx : dlookup x k <;> cases hy : dlookup y k <;> simp [opt_or]

theorem dlookup_foldl_merge (l : List Dict) (init : Dict) (k : String) :
    dlookup (l.foldl dict_merge init) k
      = opt_or (l.reverse.findSome? (fun d => dlookup d k)) (dlookup init k) := by
  induction l generalizing init with
  | nil => rfl
  | cons d t ih =>
    rw [List.foldl_cons, ih, List.reverse_cons, findSome_append,
      opt_or_assoc, dlookup_dict_merge]
    cases h1 : dlookup d k <;> simp [List.findSome?, h1, opt_or]

theorem dlookup_determine_raw (order : List Dict) (k : String) :
    dlookup (order.reverse.foldl dict_merge []) k
      = order.findSome? (fun d => dlookup d k) := by
  rw [dlookup_foldl_merge, List.reverse_reverse]
  exact opt_or_none_right _

theorem dlookup_dict_pop (d : Dict) (k0 k : String) :
    dlookup (dict_pop d k0) k = if k0 = k then none else dlookup d k := by
  induction d with
  | nil => cases h : decide (k0 = k) <;> simp_all [dict_pop, dlookup]
  | cons p t ih =>
    obtain ⟨k2, v⟩ := p
    by_cases h1 : k2 = k0 <;> by_cases h2 : k2 = k
    all_goals simp_all [dict_pop, dlookup, List.filter]
    exact fun he => h1 he.symm

theorem dlookup_foldl_pop_not_mem (names : List String) (d : Dict) (k : String)
    (h : k ∉ names) : dlookup (names.foldl dict_pop d) k = dlookup d k := by
  induction names generalizing d with
  | nil => rfl
  | cons n t ih =>
    rw [List.foldl_cons, ih _ (fun hk => h (List.mem_cons_of_mem n hk)), dlookup_dict_pop]
    have : ¬ n = k := fun he => h (he ▸ List.mem_cons_self n t)
    simp [this]

theorem dlookup_foldl_pop_mem (names : List String) (d : Dict) (k : String)
    (h : k ∈ names) : dlookup (names.foldl dict_pop d) k = none := by
  induction names generalizing d with
  | nil => cases h
  | cons n t ih =>
    rw [List.foldl_cons]
    by_cases ht : k ∈ t
    · exact ih _ ht
    · have hn : n = k := by
        rcases List.mem_cons.mp h with h1 | h2
        · exact h1.symm
        · exact absurd h2 ht
      rw [dlookup_foldl_pop_not_mem t _ k ht, dlookup_dict_pop]
      simp [hn]

theorem dlookup_remove_unwanted (acc : List String) (d : Dict) (k : String)
    (h : k ∉ non_overriding_attributes acc) :
    dlookup (remove_unwanted_attributes acc d) k = dlookup d k :=
  dlookup_foldl_pop_not_mem _ d k h

theorem dlookup_remove_unwanted_mem (acc : List String) (d : Dict) (k : String)
    (h : k ∈ non_overriding_attributes acc) :
    dlookup (remove_unwanted_attributes acc d) k = none :=
  dlookup_foldl_pop_mem _ d k h

/-- C1.  The claim as frozen quantifies over every attribute key k outside
the accumulating set; but the override merger also strips the structural keys
public and inherits, so for those two keys the override result maps nothing
even when a hierarchy member defines them.  Amended with k also distinct from
public and inherits (that is, k outside NON_OVERRIDING_ATTRIBUTES), the
override result of resolving a target maps k to the value of the hierarchy
member appearing earliest in the depth-first override order among those
defining k; in a linear chain the nearest ancestor wins and in a diamond the
first-declared parent wins. -/
theorem C1_override_earliest_wins (acc : List String) (catalog : Catalog) (name : String)
    (fuel : Nat) (order : List Dict) (ov : Dict) (k : String)
    (horder : targets_override_hierarchy catalog name fuel = .ok order)
    (hov : get_overriding_attributes_for_target acc catalog name fuel = .ok ov)
    (hk : k ∉ non_overriding_attributes acc) :
    dlookup ov k = order.findSome? (fun d => dlookup d k) := by
  unfold get_overriding_attributes_for_target at hov
  rw [horder] at hov
  cases hov
  unfold determine_overridden_attributes
  rw [dlookup_remove_unwanted acc _ k hk, dlookup_determine_raw]

/-- C1 counterexample.  At the public_catalog, the key public lies outside
the accumulating set and the earliest (only) hierarchy member defines it with
the value true, yet the override result of resolving A does not map it: the
claim as stated fails at k set to public. -/
theorem C1_counterexample :
    "public" ∉ all_accumulating_attributes ACCUMULATING_ATTRIBUTES
    ∧ targets_override_hierarchy public_catalog "A" 10 =
        .ok [[("public", AttrValue.boolean true), ("attr1", AttrValue.str "v")]]
    ∧ get_overriding_attributes_for_target ACCUMULATING_ATTRIBUTES public_catalog "A" 10 =
        .ok [("attr1", AttrValue.str "v")]
    ∧ dlookup [("attr1", AttrValue.str "v")] "public" ≠
        List.findSome? (fun d => dlookup d "public")
          [[("public", AttrValue.boolean true), ("attr1", AttrValue.str "v")]] := by
  exact ⟨by decide, rfl, rfl, by decide⟩

/-- C1 witness: the amended theorem applied at the diamond catalog, where the
first-declared parent C wins for the key k. -/
theorem C1_witness :
    targets_override_hierarchy diamond_catalog "A" 10 =
        .ok [[("inherits", AttrValue.list ["C", "D"])],
             [("k", AttrValue.str "cval")],
             [("k", AttrValue.str "dval")]]
    ∧ get_overriding_attributes_for_target ACCUMULATING_ATTRIBUTES diamond_catalog "A" 10 =
        .ok [("k", AttrValue.str "cval")]
    ∧ "k" ∉ non_overriding_attributes ACCUMULATING_ATTRIBUTES
    ∧ dlookup [("k", AttrValue.str "cval")] "k" =
        List.findSome? (fun d => dlookup d "k")
          [[("inherits", AttrValue.list ["C", "D"])],
           [("k", AttrValue.str "cval")],
           [("k", AttrValue.str "dval")]] :=
  ⟨rfl, rfl, by decide,
    C1_override_earliest_wins ACCUMULATING_ATTRIBUTES diamond_catalog "A" 10 _ _ "k"
      rfl rfl (by decide)⟩

theorem mem_non_overriding_left (acc : List String) (x : String) (hx : x ∈ acc) :
    x ∈ non_overriding_attributes acc := by
  simp only [non_overriding_attributes, all_accumulating_attributes, List.mem_append]
  exact Or.inl (Or.inl (Or.inl hx))

theorem mem_non_overriding_add (acc : List String) (x : String) (hx : x ∈ acc) :
    x ++ "_add" ∈ non_overriding_attributes acc := by
  simp only [non_overriding_attributes, all_accumulating_attributes, List.mem_append]
  exact Or.inl (Or.inl (Or.inr (List.mem_map.mpr ⟨x, hx, rfl⟩)))

theorem mem_non_overriding_remove (acc : List String) (x : String) (hx : x ∈ acc) :
    x ++ "_remove" ∈ non_overriding_attributes acc := by
  simp only [non_overriding_attributes, all_accumulating_attributes, List.mem_append]
  exact Or.inl (Or.inr (List.mem_map.mpr ⟨x, hx, rfl⟩))

theorem mem_non_overriding_public (acc : List String) :
    "public" ∈ non_overriding_attributes acc := by
  simp [non_overriding_attributes]

theorem mem_non_overriding_inherits (acc : List String) :
    "inherits" ∈ non_overriding_attributes acc := by
  simp [non_overriding_attributes]

theorem dlookup_det_acc_not_mem (acc : List String) (order : List Dict) (k : String)
    (h : k ∉ acc) : dlookup (determine_accumulated_attributes acc order) k = none := by
  induction acc with
  | nil => rfl
  | cons a t ih =>
    have ha : ¬ a = k := fun he => h (he ▸ List.mem_cons_self a t)
    have ht : k ∉ t := fun hm => h (List.mem_cons_of_mem a hm)
    unfold determine_accumulated_attributes
    rw [List.filterMap_cons]
    by_cases hc : (find_base order a).isSome || !(collect_adds order a).isEmpty
    · simp only [hc, if_true, dlookup, ha, if_false]
      exact ih ht
    · simp only [hc, if_false]
      exact ih ht

theorem dlookup_det_acc_mem (acc : List String) (order : List Dict) (x : String)
    (hx : x ∈ acc) :
    dlookup (determine_accumulated_attributes acc order) x =
      if (find_base order x).isSome || !(collect_adds order x).isEmpty
      then some (.list (effective_value order x)) else none := by
  induction acc with
  | nil => cases hx
  | cons a t ih =>
    unfold determine_accumulated_attributes
    rw [List.filterMap_cons]
    by_cases ha : a = x
    · subst ha
      cases hc : (find_base order a).isSome || !(collect_adds order a).isEmpty
      · simp only [hc, Bool.false_eq_true, if_false]
        by_cases hat : a ∈ t
        · have h2 := ih hat
          unfold determine_accumulated_attributes at h2
          rw [h2, hc]
          simp
        · have h3 := dlookup_det_acc_not_mem t order a hat
          unfold determine_accumulated_attributes at h3
          rw [h3]
      · simp [hc, dlookup]
    · have hxt : x ∈ t := by
        rcases List.mem_cons.mp hx with h1 | h2
        · exact absurd h1.symm ha
        · exact h2
      have h2 := ih hxt
      unfold determine_accumulated_attributes at h2
      cases hc : (find_base order a).isSome || !(collect_adds order a).isEmpty
      · simp only [hc, Bool.false_eq_true, if_false]
        exact h2
      · simp only [hc, if_true, dlookup, ha, if_false]
        exact h2

theorem dlookup_map_setentry (d : Dict) (k0 k : String) (v : AttrValue) :
    dlookup (d.map (fun p => if p.1 = k0 then (k0, v) else p)) k
      = if k0 = k then (dlookup d k0).map (fun _ => v) else dlookup d k := by
  induction d with
  | nil => by_cases h : k0 = k <;> simp [dlookup, h]
  | cons p t ih =>
    obtain ⟨k2, w⟩ := p
    by_cases h2 : k0 = k
    · subst h2
      rw [if_pos rfl] at ih ⊢
      rw [List.map_cons]
      by_cases h1 : k2 = k0
      · rw [if_pos h1, dlookup_cons, dlookup_cons, if_pos rfl, if_pos h1]
        rfl
      · rw [if_neg h1, dlookup_cons, dlookup_cons, if_neg h1, if_neg h1, ih]
    · rw [if_neg h2] at ih ⊢
      rw [List.map_cons]
      by_cases h1 : k2 = k0
      · rw [if_pos h1, dlookup_cons, dlookup_cons, if_neg h2, ih,
          if_neg (fun he => h2 (h1.symm.trans he))]
      · rw [if_neg h1, dlookup_cons, dlookup_cons]
        by_cases h3 : k2 = k
        · rw [if_pos h3, if_pos h3]
        · rw [if_neg h3, if_neg h3, ih]

theorem dlookup_dict_set (d : Dict) (k0 k : String) (v : AttrValue) :
    dlookup (dict_set d k0 v) k = if k0 = k then some v else dlookup d k := by
  unfold dict_set
  by_cases hp : (dlookup d k0).isSome
  · rw [if_pos hp, dlookup_map_setentry]
    by_cases h2 : k0 = k
    · subst h2
      rw [if_pos rfl, if_pos rfl]
      obtain ⟨w, hw⟩ := Option.isSome_iff_exists.mp hp
      rw [hw]
      rfl
    · rw [if_neg h2, if_neg h2]
  · rw [if_neg hp, dlookup_append]
    have hn : dlookup d k0 = none := Option.not_isSome_iff_eq_none.mp hp
    by_cases h2 : k0 = k
    · subst h2
      rw [hn, if_pos rfl, dlookup_cons, if_pos rfl]
      rfl
    · rw [if_neg h2, dlookup_cons, if_neg h2]
      exact opt_or_none_right _

theorem dlookup_get_overriding (acc : List String) (catalog : Catalog) (name : String)
    (fuel : Nat) (ov : Dict) (k : String)
    (hov : get_overriding_attributes_for_target acc catalog name fuel = .ok ov)
    (hk : k ∈ non_overriding_attributes acc) : dlookup ov k = none := by
  unfold get_overriding_attributes_for_target at hov
  cases h : targets_override_hierarchy catalog name fuel with
  | error e => rw [h] at hov; cases hov
  | ok order =>
    rw [h] at hov; cases hov
    exact dlookup_remove_unwanted_mem acc _ k hk

theorem dlookup_det_acc_none_of_get {acc : List String} {catalog : Catalog} {name : String}
    {fuel : Nat} {accd : Dict} {k : String}
    (h : get_accumulating_attributes_for_target acc catalog name fuel = .ok accd)
    (hk : k ∉ acc) : dlookup accd k = none := by
  unfold get_accumulating_attributes_for_target at h
  cases hw : targets_accumulate_hierarchy catalog name fuel with
  | error e => rw [hw] at h; cases h
  | ok order =>
    rw [hw] at h
    cases h
    exact dlookup_det_acc_not_mem acc order k hk

theorem extract_ok_parts (acc : List String) (catalog : Catalog) (name : String)
    (fuel : Nat) (res : Dict)
    (h : extract_target_attributes acc catalog name fuel = .ok res) :
    ∃ ov accd, get_overriding_attributes_for_target acc catalog name fuel = .ok ov
      ∧ get_accumulating_attributes_for_target acc catalog name fuel = .ok accd
      ∧ res = dict_merge ov accd := by
  unfold extract_target_attributes at h
  split at h
  · exact Except.noConfusion h
  · split at h
    · split at h
      · exact Except.noConfusion h
      · split at h
        · exact Except.noConfusion h
        · cases h
          refine ⟨_, _, ?_, ?_, rfl⟩ <;> assumption
    · exact Except.noConfusion h

theorem get_target_attributes_ok_parts (acc : List String)
    (coreLabels : List (String × List String)) (catalog : Catalog) (name : String)
    (fuel : Nat) (res : Dict)
    (h : get_target_attributes acc coreLabels catalog name fuel = .ok res) :
    ∃ build hl, extract_target_attributes acc catalog name fuel = .ok build
      ∧ get_labels_for_target catalog name fuel = .ok hl
      ∧ res = dict_set build "labels"
          (.strset (set_union hl (extract_core_labels coreLabels (dlookup build "core")))) := by
  unfold get_target_attributes at h
  cases hb : extract_target_attributes acc catalog name fuel with
  | error e => rw [hb] at h; cases h
  | ok build =>
    rw [hb] at h
    cases hlab : get_labels_for_target catalog name fuel with
    | error e => rw [hlab] at h; cases h
    | ok hl =>
      rw [hlab] at h
      cases h
      exact ⟨build, hl, rfl, rfl, rfl⟩

theorem c3_final_none (acc : List String) (coreLabels : List (String × List String))
    (catalog : Catalog) (name : String) (fuel : Nat) (res : Dict) (k : String)
    (hres : get_target_attributes acc coreLabels catalog name fuel = .ok res)
    (hknacc : k ∉ acc) (hkno : k ∈ non_overriding_attributes acc)
    (hkl : "labels" ≠ k) : dlookup res k = none := by
  obtain ⟨build, hl, hb, hlab, hres2⟩ :=
    get_target_attributes_ok_parts acc coreLabels catalog name fuel res hres
  obtain ⟨ov, accd, hov, hacc, hbuild⟩ :=
    extract_ok_parts acc catalog name fuel build hb
  subst hres2 hbuild
  rw [dlookup_dict_set, if_neg hkl, dlookup_dict_merge,
    dlookup_det_acc_none_of_get hacc hknacc,
    dlookup_get_overriding acc catalog name fuel ov k hov hkno]
  rfl

/-- C2.  Resolving a target for an accumulating attribute name x yields the
first-found base list of x in the accumulate order, joined with every element
of every X_add list across the hierarchy, with every element matching some
entry of some X_remove list filtered out; the entry is omitted when x has no
base and no adds anywhere.  (The accumulating merger is modelled from the
spec; the accumulating-name set is its injected configuration parameter.) -/
theorem C2_accumulated_value (acc : List String) (catalog : Catalog) (name : String)
    (fuel : Nat) (order : List Dict) (res : Dict) (x : String)
    (hx : x ∈ acc)
    (horder : targets_accumulate_hierarchy catalog name fuel = .ok order)
    (hres : extract_target_attributes acc catalog name fuel = .ok res) :
    dlookup res x =
      if (find_base order x).isSome || !(collect_adds order x).isEmpty
      then some (.list (((find_base order x).getD [] ++ collect_adds order x).filter
        (fun e => !((collect_removes order x).any (fun r => element_matches r e)))))
      else none := by
  obtain ⟨ov, accd, hov, hacc, hres2⟩ := extract_ok_parts acc catalog name fuel res hres
  subst hres2
  unfold get_accumulating_attributes_for_target at hacc
  rw [horder] at hacc
  cases hacc
  rw [dlookup_dict_merge, dlookup_det_acc_mem acc order x hx,
    dlookup_get_overriding acc catalog name fuel ov x hov
      (mem_non_overriding_left acc x hx)]
  by_cases hc : (find_base order x).isSome || !(collect_adds order x).isEmpty <;>
    simp [hc, opt_or, effective_value]

/-- C2 witness: the theorem applied to the literal example of the spec, with
attr as the injected accumulating name; the resolved value of attr is the
list holding exactly 1 and 3. -/
theorem C2_witness :
    targets_accumulate_hierarchy p3_catalog "A" 10 =
        .ok [[("inherits", AttrValue.list ["C"]), ("attr_remove", AttrValue.list ["2"])],
             [("inherits", AttrValue.list ["D"]), ("attr_add", AttrValue.list ["2", "3"])],
             [("attr", AttrValue.list ["1"])]]
    ∧ extract_target_attributes ["attr"] p3_catalog "A" 10 =
        .ok [("attr", AttrValue.list ["1", "3"])]
    ∧ dlookup [("attr", AttrValue.list ["1", "3"])] "attr"
        = some (AttrValue.list ["1", "3"]) := by
  refine ⟨rfl, rfl, ?_⟩
  have h := C2_accumulated_value ["attr"] p3_catalog "A" 10 _ _ "attr"
    (by decide) rfl rfl
  exact h.trans (by rfl)

/-- C3.  For every resolvable target the final resolved attribute mapping
contains neither the key inherits nor the key public, and for every
accumulating attribute name x the override-merge output contains none of the
keys x, x_add and x_remove (the structural keys public and inherits are not
themselves accumulating names). -/
theorem C3_no_structural_keys (acc : List String) (coreLabels : List (String × List String))
    (catalog : Catalog) (name : String) (fuel : Nat) (res ov : Dict)
    (hres : get_target_attributes acc coreLabels catalog name fuel = .ok res)
    (hov : get_overriding_attributes_for_target acc catalog name fuel = .ok ov)
    (hpub : "public" ∉ acc) (hinh : "inherits" ∉ acc) :
    dlookup res "inherits" = none ∧ dlookup res "public" = none
    ∧ ∀ x ∈ acc, dlookup ov x = none ∧ dlookup ov (x ++ "_add") = none
        ∧ dlookup ov (x ++ "_remove") = none := by
  refine ⟨?_, ?_, ?_⟩
  · exact c3_final_none acc coreLabels catalog name fuel res "inherits" hres hinh
      (mem_non_overriding_inherits acc) (by decide)
  · exact c3_final_none acc coreLabels catalog name fuel res "public" hres hpub
      (mem_non_overriding_public acc) (by decide)
  · intro x hx
    exact ⟨dlookup_get_overriding acc catalog name fuel ov x hov
        (mem_non_overriding_left acc x hx),
      dlookup_get_overriding acc catalog name fuel ov _ hov
        (mem_non_overriding_add acc x hx),
      dlookup_get_overriding acc catalog name fuel ov _ hov
        (mem_non_overriding_remove acc x hx)⟩

/-- C3 witness: the theorem applied at the linear chain catalog with the
standard accumulating-name constant. -/
theorem C3_witness :
    get_target_attributes ACCUMULATING_ATTRIBUTES [] chain_catalog "A" 10 =
        .ok [("k", AttrValue.str "aval"), ("labels", AttrValue.strset ["A", "B", "C"])]
    ∧ get_overriding_attributes_for_target ACCUMULATING_ATTRIBUTES chain_catalog "A" 10 =
        .ok [("k", AttrValue.str "aval")]
    ∧ dlookup [("k", AttrValue.str "aval"),
        ("labels", AttrValue.strset ["A", "B", "C"])] "inherits" = none
    ∧ dlookup [("k", AttrValue.str "aval"),
        ("labels", AttrValue.strset ["A", "B", "C"])] "public" = none
    ∧ ∀ x ∈ ACCUMULATING_ATTRIBUTES,
        dlookup [("k", AttrValue.str "aval")] x = none
        ∧ dlookup [("k", AttrValue.str "aval")] (x ++ "_add") = none
        ∧ dlookup [("k", AttrValue.str "aval")] (x ++ "_remove") = none := by
  have h := C3_no_structural_keys ACCUMULATING_ATTRIBUTES [] chain_catalog "A" 10 _ _
    rfl rfl (by decide) (by decide)
  exact ⟨rfl, rfl, h.1, h.2.1, h.2.2⟩

theorem push_front_rev_error (catalog : Catalog) (ms : List String) (q : List Dict) (e : Err)
    (h : push_front_rev catalog ms q = .error e) :
    ∃ p, dlookup catalog p = none ∧ e = .keyMiss p := by
  induction ms generalizing q with
  | nil => exact Except.noConfusion h
  | cons p rest ih =>
    unfold push_front_rev at h
    cases hl : dlookup catalog p with
    | none =>
      rw [hl] at h
      cases h
      exact ⟨p, hl, rfl⟩
    | some d =>
      rw [hl] at h
      exact ih _ h

theorem push_back_error (catalog : Catalog) (ms : List String) (q : List Dict) (e : Err)
    (h : push_back catalog ms q = .error e) :
    ∃ p, dlookup catalog p = none ∧ e = .keyMiss p := by
  induction ms generalizing q with
  | nil => exact Except.noConfusion h
  | cons p rest ih =>
    unfold push_back at h
    cases hl : dlookup catalog p with
    | none =>
      rw [hl] at h
      cases h
      exact ⟨p, hl, rfl⟩
    | some d =>
      rw [hl] at h
      exact ih _ h

theorem override_walk_error (catalog : Catalog) (fuel : Nat) (q : List Dict) (e : Err)
    (h : targets_override_hierarchy_walk catalog fuel q = .error e) :
    e = .fuelOut ∨ ∃ p, dlookup catalog p = none ∧ e = .keyMiss p := by
  induction fuel generalizing q with
  | zero =>
    cases q with
    | nil => exact Except.noConfusion h
    | cons a t =>
      unfold targets_override_hierarchy_walk at h
      cases h
      exact Or.inl rfl
  | succ n ih =>
    cases q with
    | nil => exact Except.noConfusion h
    | cons current rest =>
      unfold targets_override_hierarchy_walk at h
      split at h
      next e2 heq =>
        cases h
        exact Or.inr (push_front_rev_error catalog _ _ _ heq)
      next q2 heq =>
        split at h
        next e3 heq2 =>
          cases h
          exact ih _ heq2
        next tail heq2 => exact Except.noConfusion h

theorem accumulate_walk_error (catalog : Catalog) (fuel : Nat) (q : List Dict) (e : Err)
    (h : targets_accumulate_hierarchy_walk catalog fuel q = .error e) :
    e = .fuelOut ∨ ∃ p, dlookup catalog p = none ∧ e = .keyMiss p := by
  induction fuel generalizing q with
  | zero =>
    cases q with
    | nil => exact Except.noConfusion h
    | cons a t =>
      unfold targets_accumulate_hierarchy_walk at h
      cases h
      exact Or.inl rfl
  | succ n ih =>
    cases q with
    | nil => exact Except.noConfusion h
    | cons current rest =>
      unfold targets_accumulate_hierarchy_walk at h
      split at h
      next e2 heq =>
        cases h
        exact Or.inr (push_back_error catalog _ _ _ heq)
      next q2 heq =>
        split at h
        next e3 heq2 =>
          cases h
          exact ih _ heq2
        next tail heq2 => exact Except.noConfusion h

theorem override_hierarchy_error (catalog : Catalog) (name : String) (fuel : Nat) (e : Err)
    (h : targets_override_hierarchy catalog name fuel = .error e) :
    e = .fuelOut ∨ ∃ p, dlookup catalog p = none ∧ e = .keyMiss p := by
  unfold targets_override_hierarchy at h
  cases hl : dlookup catalog name with
  | none =>
    rw [hl] at h
    cases h
    exact Or.inr ⟨name, hl, rfl⟩
  | some d =>
    rw [hl] at h
    exact override_walk_error catalog fuel [d] e h

theorem accumulate_hierarchy_error (catalog : Catalog) (name : String) (fuel : Nat) (e : Err)
    (h : targets_accumulate_hierarchy catalog name fuel = .error e) :
    e = .fuelOut ∨ ∃ p, dlookup catalog p = none ∧ e = .keyMiss p := by
  unfold targets_accumulate_hierarchy at h
  cases hl : dlookup catalog name with
  | none =>
    rw [hl] at h
    cases h
    exact Or.inr ⟨name, hl, rfl⟩
  | some d =>
    rw [hl] at h
    exact accumulate_walk_error catalog fuel [d] e h

theorem get_overriding_error (acc : List String) (catalog : Catalog) (name : String)
    (fuel : Nat) (e : Err)
    (h : get_overriding_attributes_for_target acc catalog name fuel = .error e) :
    e = .fuelOut ∨ ∃ p, dlookup catalog p = none ∧ e = .keyMiss p := by
  unfold get_overriding_attributes_for_target at h
  cases hw : targets_override_hierarchy catalog name fuel with
  | error e2 =>
    rw [hw] at h
    cases h
    exact override_hierarchy_error catalog name fuel _ hw
  | ok order =>
    rw [hw] at h
    exact Except.noConfusion h

theorem get_accumulating_error (acc : List String) (catalog : Catalog) (name : String)
    (fuel : Nat) (e : Err)
    (h : get_accumulating_attributes_for_target acc catalog name fuel = .error e) :
    e = .fuelOut ∨ ∃ p, dlookup catalog p = none ∧ e = .keyMiss p := by
  unfold get_accumulating_attributes_for_target at h
  cases hw : targets_accumulate_hierarchy catalog name fuel with
  | error e2 =>
    rw [hw] at h
    cases h
    exact accumulate_hierarchy_error catalog name fuel _ hw
  | ok order =>
    rw [hw] at h
    exact Except.noConfusion h

/-- C4.  Resolving a name absent from the catalog and resolving a name whose
definition explicitly sets public to false both fail with
TargetAttributesNotFoundError carrying that name (the same single error
kind, so the two situations are indistinguishable to a caller); while a
definition without a public key is treated as visible, so the resolution of
such a name never raises TargetAttributesNotFoundError. -/
theorem C4_missing_and_private_agree (acc : List String) (catalog : Catalog) (name : String)
    (fuel : Nat) :
    (dlookup catalog name = none →
      extract_target_attributes acc catalog name fuel = .error (.notFound name))
    ∧ (∀ d, dlookup catalog name = some d → dlookup d "public" = some (.boolean false) →
      extract_target_attributes acc catalog name fuel = .error (.notFound name))
    ∧ (∀ d, dlookup catalog name = some d → dlookup d "public" = none →
      ∀ s, extract_target_attributes acc catalog name fuel ≠ .error (.notFound s)) := by
  refine ⟨?_, ?_, ?_⟩
  · intro h
    unfold extract_target_attributes
    rw [h]
  · intro d hd hpub
    have hp : isPublic d = false := by
      unfold isPublic
      rw [hpub]
      rfl
    unfold extract_target_attributes
    rw [hd]
    simp [hp]
  · intro d hd hpub s hcontra
    have hp : isPublic d = true := by
      unfold isPublic
      rw [hpub]
    unfold extract_target_attributes at hcontra
    rw [hd] at hcontra
    rw [show (match some d with
        | none => Except.error (Err.notFound name)
        | some d =>
          if isPublic d = true then
            match get_overriding_attributes_for_target acc catalog name fuel with
            | Except.error e => Except.error e
            | Except.ok ov =>
              match get_accumulating_attributes_for_target acc catalog name fuel with
              | Except.error e => Except.error e
              | Except.ok accd => Except.ok (dict_merge ov accd)
          else Except.error (Err.notFound name)) =
        (if isPublic d = true then
            match get_overriding_attributes_for_target acc catalog name fuel with
            | Except.error e => Except.error e
            | Except.ok ov =>
              match get_accumulating_attributes_for_target acc catalog name fuel with
              | Except.error e => Except.error e
              | Except.ok accd => Except.ok (dict_merge ov accd)
          else Except.error (Err.notFound name)) from rfl, if_pos hp] at hcontra
    cases hov : get_overriding_attributes_for_target acc catalog name fuel with
    | error e =>
      rw [hov] at hcontra
      cases hcontra
      rcases get_overriding_error acc catalog name fuel _ hov with h1 | ⟨p, _, h2⟩
      · exact Err.noConfusion h1
      · exact Err.noConfusion h2
    | ok ov =>
      rw [hov] at hcontra
      cases hacc : get_accumulating_attributes_for_target acc catalog name fuel with
      | error e =>
        rw [hacc] at hcontra
        cases hcontra
        rcases get_accumulating_error acc catalog name fuel _ hacc with h1 | ⟨p, _, h2⟩
        · exact Err.noConfusion h1
        · exact Err.noConfusion h2
      | ok accd =>
        rw [hacc] at hcontra
        exact Except.noConfusion hcontra

/-- C4 witness: at the private_catalog, resolving the absent name Missing and
the private name Priv both yield TargetAttributesNotFoundError, while the
public target Pub does not. -/
theorem C4_witness :
    extract_target_attributes ACCUMULATING_ATTRIBUTES private_catalog "Missing" 10 =
        .error (.notFound "Missing")
    ∧ extract_target_attributes ACCUMULATING_ATTRIBUTES private_catalog "Priv" 10 =
        .error (.notFound "Priv")
    ∧ extract_target_attributes ACCUMULATING_ATTRIBUTES private_catalog "Pub" 10 ≠
        .error (.notFound "Pub") := by
  refine ⟨?_, ?_, ?_⟩
  · exact (C4_missing_and_private_agree ACCUMULATING_ATTRIBUTES private_catalog
      "Missing" 10).1 rfl
  · exact (C4_missing_and_private_agree ACCUMULATING_ATTRIBUTES private_catalog
      "Priv" 10).2.1 _ rfl rfl
  · exact (C4_missing_and_private_agree ACCUMULATING_ATTRIBUTES private_catalog
      "Pub" 10).2.2 _ rfl rfl "Pub"

/-- C5.  The element-removal matcher accepts remove entry r and candidate e
exactly when e equals r or e is r followed by an equals sign and anything;
consequently a base list holding FEATURE=1 with remove list FEATURE yields an
empty effective value, while a candidate whose name merely extends the
remove entry (SOMETHING_ELSE against SOMETHING) survives. -/
theorem C5_element_matches_iff :
    (∀ r e : String, element_matches r e = true ↔
      (e = r ∨ ∃ rest : String, e = r ++ "=" ++ rest))
    ∧ effective_value feature_order "features" = []
    ∧ element_matches "SOMETHING" "SOMETHING_ELSE" = false
    ∧ effective_value something_order "features" = ["SOMETHING_ELSE"] := by
  refine ⟨?_, by rfl, by rfl, by rfl⟩
  intro r e
  unfold element_matches
  rw [Bool.or_eq_true, beq_iff_eq, List.isPrefixOf_iff_prefix]
  constructor
  · rintro (h | ⟨t, ht⟩)
    · exact Or.inl h
    · refine Or.inr ⟨⟨t⟩, String.ext ?_⟩
      rw [← ht]
      simp [String.data_append]
  · rintro (h | ⟨rest, hrest⟩)
    · exact Or.inl h
    · subst hrest
      exact Or.inr ⟨rest.data, by simp [String.data_append]⟩

theorem push_front_rev_ok_sub (catalog : Catalog) (ms : List String) (q q2 : List Dict)
    (h : push_front_rev catalog ms q = .ok q2) : ∀ d ∈ q, d ∈ q2 := by
  induction ms generalizing q with
  | nil =>
    cases h
    exact fun d hd => hd
  | cons p rest ih =>
    unfold push_front_rev at h
    cases hl : dlookup catalog p with
    | none =>
      rw [hl] at h
      exact Except.noConfusion h
    | some dp =>
      rw [hl] at h
      exact fun d hd => ih _ h d (List.mem_cons_of_mem dp hd)

theorem push_front_rev_ok_mem (catalog : Catalog) (ms : List String) (q q2 : List Dict)
    (h : push_front_rev catalog ms q = .ok q2) :
    ∀ d ∈ q2, (∃ p ∈ ms, dlookup catalog p = some d) ∨ d ∈ q := by
  induction ms generalizing q with
  | nil =>
    cases h
    exact fun d hd => Or.inr hd
  | cons p rest ih =>
    unfold push_front_rev at h
    cases hl : dlookup catalog p with
    | none =>
      rw [hl] at h
      exact Except.noConfusion h
    | some dp =>
      rw [hl] at h
      intro d hd
      rcases ih _ h d hd with ⟨p2, hp2, hl2⟩ | hmem
      · exact Or.inl ⟨p2, List.mem_cons_of_mem p hp2, hl2⟩
      · rcases List.mem_cons.mp hmem with h1 | h2
        · exact Or.inl ⟨p, List.mem_cons_self p rest, h1 ▸ hl⟩
        · exact Or.inr h2

theorem push_front_rev_ok_parents (catalog : Catalog) (ms : List String) (q q2 : List Dict)
    (h : push_front_rev catalog ms q = .ok q2) :
    ∀ p ∈ ms, ∃ dp, dlookup catalog p = some dp ∧ dp ∈ q2 := by
  induction ms generalizing q with
  | nil => exact fun p hp => absurd hp (List.not_mem_nil p)
  | cons p0 rest ih =>
    unfold push_front_rev at h
    cases hl : dlookup catalog p0 with
    | none =>
      rw [hl] at h
      exact Except.noConfusion h
    | some dp0 =>
      rw [hl] at h
      intro p hp
      rcases List.mem_cons.mp hp with h1 | h2
      · exact ⟨dp0, h1 ▸ hl, push_front_rev_ok_sub catalog rest _ _ h dp0
          (List.mem_cons_self dp0 q)⟩
      · exact ih _ h p h2

theorem override_walk_queue_sub (catalog : Catalog) (fuel : Nat) (q order : List Dict)
    (h : targets_override_hierarchy_walk catalog fuel q = .ok order) : ∀ d ∈ q, d ∈ order := by
  induction fuel generalizing q order with
  | zero =>
    cases q with
    | nil =>
      cases h
      exact fun d hd => hd
    | cons a t => exact Except.noConfusion h
  | succ n ih =>
    cases q with
    | nil =>
      cases h
      exact fun d hd => hd
    | cons current rest =>
      unfold targets_override_hierarchy_walk at h
      split at h
      next e2 heq => exact Except.noConfusion h
      next q2 heq =>
        split at h
        next e3 heq2 => exact Except.noConfusion h
        next tail heq2 =>
          cases h
          intro d hd
          rcases List.mem_cons.mp hd with h1 | h2
          · exact h1 ▸ List.mem_cons_self current tail
          · exact List.mem_cons_of_mem current
              (ih _ _ heq2 d (push_front_rev_ok_sub catalog _ _ _ heq d h2))

theorem override_walk_parents (catalog : Catalog) (fuel : Nat) (q order : List Dict)
    (h : targets_override_hierarchy_walk catalog fuel q = .ok order) :
    ∀ d ∈ order, ∀ p ∈ getInherits d, ∃ dp, dlookup catalog p = some dp ∧ dp ∈ order := by
  induction fuel generalizing q order with
  | zero =>
    cases q with
    | nil =>
      cases h
      exact fun d hd => absurd hd (List.not_mem_nil d)
    | cons a t => exact Except.noConfusion h
  | succ n ih =>
    cases q with
    | nil =>
      cases h
      exact fun d hd => absurd hd (List.not_mem_nil d)
    | cons current rest =>
      unfold targets_override_hierarchy_walk at h
      split at h
      next e2 heq => exact Except.noConfusion h
      next q2 heq =>
        split at h
        next e3 heq2 => exact Except.noConfusion h
        next tail heq2 =>
          cases h
          intro d hd p hp
          rcases List.mem_cons.mp hd with h1 | h2
          · subst h1
            obtain ⟨dp, hdp, hdpq2⟩ := push_front_rev_ok_parents catalog _ _ _ heq p
              (List.mem_reverse.mpr hp)
            exact ⟨dp, hdp, List.mem_cons_of_mem d (override_walk_queue_sub catalog n q2 tail
              heq2 dp hdpq2)⟩
          · obtain ⟨dp, hdp, hdptail⟩ := ih _ _ heq2 d h2 p hp
            exact ⟨dp, hdp, List.mem_cons_of_mem current hdptail⟩

theorem override_walk_sound (catalog : Catalog) (name : String) (fuel : Nat)
    (q order : List Dict)
    (h : targets_override_hierarchy_walk catalog fuel q = .ok order)
    (hq : ∀ d ∈ q, ∃ m, dlookup catalog m = some d
        ∧ Relation.ReflTransGen (inherits_step catalog) name m) :
    ∀ d ∈ order, ∃ m, dlookup catalog m = some d
        ∧ Relation.ReflTransGen (inherits_step catalog) name m := by
  induction fuel generalizing q order with
  | zero =>
    cases q with
    | nil =>
      cases h
      exact fun d hd => absurd hd (List.not_mem_nil d)
    | cons a t => exact Except.noConfusion h
  | succ n ih =>
    cases q with
    | nil =>
      cases h
      exact fun d hd => absurd hd (List.not_mem_nil d)
    | cons current rest =>
      obtain ⟨mc, hmc, hmcr⟩ := hq current (List.mem_cons_self current rest)
      unfold targets_override_hierarchy_walk at h
      split at h
      next e2 heq => exact Except.noConfusion h
      next q2 heq =>
        split at h
        next e3 heq2 => exact Except.noConfusion h
        next tail heq2 =>
          cases h
          intro d hd
          rcases List.mem_cons.mp hd with h1 | h2
          · exact h1 ▸ ⟨mc, hmc, hmcr⟩
          · refine ih _ _ heq2 ?_ d h2
            intro d2 hd2
            rcases push_front_rev_ok_mem catalog _ _ _ heq d2 hd2 with ⟨p, hpms, hpl⟩ | hmem
            · exact ⟨p, hpl, hmcr.tail ⟨current, hmc, List.mem_reverse.mp hpms⟩⟩
            · exact hq d2 (List.mem_cons_of_mem current hmem)

theorem override_hierarchy_ok_parts (catalog : Catalog) (name : String) (fuel : Nat)
    (order : List Dict)
    (h : targets_override_hierarchy catalog name fuel = .ok order) :
    ∃ d0, dlookup catalog name = some d0
      ∧ targets_override_hierarchy_walk catalog fuel [d0] = .ok order := by
  unfold targets_override_hierarchy at h
  cases hl : dlookup catalog name with
  | none =>
    rw [hl] at h
    exact Except.noConfusion h
  | some d0 =>
    rw [hl] at h
    exact ⟨d0, rfl, h⟩

theorem override_hierarchy_complete (catalog : Catalog) (name : String) (fuel : Nat)
    (order : List Dict)
    (h : targets_override_hierarchy catalog name fuel = .ok order) :
    ∀ m, Relation.ReflTransGen (inherits_step catalog) name m →
      ∃ dm, dlookup catalog m = some dm ∧ dm ∈ order := by
  obtain ⟨d0, hd0, hwalk⟩ := override_hierarchy_ok_parts catalog name fuel order h
  intro m hreach
  induction hreach with
  | refl =>
    exact ⟨d0, hd0, override_walk_queue_sub catalog fuel [d0] order hwalk d0
      (List.mem_cons_self d0 [])⟩
  | tail hr hstep ih =>
    obtain ⟨dm2, hdm2, hdm2o⟩ := ih
    obtain ⟨dstep, hdstep, hpstep⟩ := hstep
    rw [hdm2] at hdstep
    cases hdstep
    exact (override_walk_parents catalog fuel [d0] order hwalk dm2 hdm2o _ hpstep).imp
      (fun dp hdp => hdp)

theorem mem_set_insert (s : List String) (y x : String) :
    x ∈ set_insert s y ↔ x ∈ s ∨ x = y := by
  unfold set_insert
  by_cases hy : y ∈ s
  · rw [if_pos hy]
    constructor
    · exact Or.inl
    · rintro (h | h)
      · exact h
      · exact h ▸ hy
  · rw [if_neg hy]
    simp

theorem mem_foldl_set_insert (l : List String) (s : List String) (x : String) :
    x ∈ l.foldl set_insert s ↔ x ∈ s ∨ x ∈ l := by
  induction l generalizing s with
  | nil => simp
  | cons y t ih =>
    rw [List.foldl_cons, ih, mem_set_insert]
    constructor
    · rintro ((h | h) | h)
      · exact Or.inl h
      · exact Or.inr (h ▸ List.mem_cons_self y t)
      · exact Or.inr (List.mem_cons_of_mem y h)
    · rintro (h | h)
      · exact Or.inl (Or.inl h)
      · rcases List.mem_cons.mp h with h1 | h2
        · exact Or.inl (Or.inr h1)
        · exact Or.inr h2

theorem mem_set_union (s t : List String) (x : String) :
    x ∈ set_union s t ↔ x ∈ s ∨ x ∈ t :=
  mem_foldl_set_insert t s x

theorem mem_labels_fold (order : List Dict) (s : List String) (x : String) :
    x ∈ order.foldl (fun labels d => (getInherits d).foldl set_insert labels) s
      ↔ x ∈ s ∨ ∃ d ∈ order, x ∈ getInherits d := by
  induction order generalizing s with
  | nil => simp
  | cons d t ih =>
    rw [List.foldl_cons, ih, mem_foldl_set_insert]
    constructor
    · rintro ((h | h) | ⟨d2, hd2, hx⟩)
      · exact Or.inl h
      · exact Or.inr ⟨d, List.mem_cons_self d t, h⟩
      · exact Or.inr ⟨d2, List.mem_cons_of_mem d hd2, hx⟩
    · rintro (h | ⟨d2, hd2, hx⟩)
      · exact Or.inl (Or.inl h)
      · rcases List.mem_cons.mp hd2 with h1 | h2
        · exact Or.inl (Or.inr (h1 ▸ hx))
        · exact Or.inr ⟨d2, h2, hx⟩

theorem mem_extract_labels (order : List Dict) (name x : String) :
    x ∈ extract_target_labels order name ↔ x = name ∨ ∃ d ∈ order, x ∈ getInherits d := by
  unfold extract_target_labels
  rw [mem_labels_fold]
  simp

theorem get_labels_iff_reachable (catalog : Catalog) (name : String) (fuel : Nat)
    (hlabels : List String)
    (h : get_labels_for_target catalog name fuel = .ok hlabels) :
    ∀ x, x ∈ hlabels ↔ Relation.ReflTransGen (inherits_step catalog) name x := by
  unfold get_labels_for_target at h
  cases hw : targets_override_hierarchy catalog name fuel with
  | error e =>
    rw [hw] at h
    exact Except.noConfusion h
  | ok order =>
    rw [hw] at h
    cases h
    obtain ⟨d0, hd0, hwalk⟩ := override_hierarchy_ok_parts catalog name fuel order hw
    intro x
    rw [mem_extract_labels]
    constructor
    · rintro (h | ⟨d, hdo, hx⟩)
      · exact h ▸ Relation.ReflTransGen.refl
      · obtain ⟨m, hm, hmr⟩ := override_walk_sound catalog name fuel [d0] order hwalk
          (fun d2 hd2 => by
            rcases List.mem_cons.mp hd2 with h1 | h2
            · exact ⟨name, h1 ▸ hd0, Relation.ReflTransGen.refl⟩
            · exact absurd h2 (List.not_mem_nil d2)) d hdo
        exact hmr.tail ⟨d, hm, hx⟩
    · intro hr
      rcases Relation.ReflTransGen.cases_tail hr with h1 | ⟨m, hm, hstep⟩
      · exact Or.inl h1
      · obtain ⟨dm, hdm, hdmo⟩ := override_hierarchy_complete catalog name fuel order hw m hm
        obtain ⟨dstep, hdstep, hx⟩ := hstep
        rw [hdm] at hdstep
        cases hdstep
        exact Or.inr ⟨dm, hdmo, hx⟩

/-- C6.  The claim as frozen says the labels entry of the resolved result is
exactly the target plus its transitive ancestors; the assembler however
unions the hierarchy-derived labels with the core-derived labels, so the
claim fails whenever the resolved core contributes labels.  Amended: the
hierarchy-derived label set of a resolvable target holds exactly the target
and its transitive ancestors, and the labels entry of the resolved result is
that set unioned with the core-derived labels (hence exactly the target and
its ancestors whenever the core contribution is empty). -/
theorem C6_labels_reachable (acc : List String) (coreLabels : List (String × List String))
    (catalog : Catalog) (name : String) (fuel : Nat) (res : Dict)
    (hres : get_target_attributes acc coreLabels catalog name fuel = .ok res) :
    ∃ build hlabels,
      extract_target_attributes acc catalog name fuel = .ok build
      ∧ get_labels_for_target catalog name fuel = .ok hlabels
      ∧ (∀ x, x ∈ hlabels ↔ Relation.ReflTransGen (inherits_step catalog) name x)
      ∧ ∃ L, dlookup res "labels" = some (.strset L)
          ∧ ∀ x, x ∈ L ↔ (Relation.ReflTransGen (inherits_step catalog) name x
              ∨ x ∈ extract_core_labels coreLabels (dlookup build "core")) := by
  obtain ⟨build, hlabels, hb, hlab, hres2⟩ :=
    get_target_attributes_ok_parts acc coreLabels catalog name fuel res hres
  subst hres2
  refine ⟨build, hlabels, hb, hlab, get_labels_iff_reachable catalog name fuel hlabels hlab,
    set_union hlabels (extract_core_labels coreLabels (dlookup build "core")), ?_, ?_⟩
  · rw [dlookup_dict_set, if_pos rfl]
  · intro x
    rw [mem_set_union]
    exact or_congr_left (get_labels_iff_reachable catalog name fuel hlabels hlab x)

/-- C6 counterexample.  At the core_catalog with the example CORE_LABELS
mapping, the single target A has no ancestors, yet the labels entry of the
resolved result also holds CORTEX_M4, so it is not the set consisting of the
target and its transitive ancestors alone. -/
theorem C6_counterexample :
    get_target_attributes ACCUMULATING_ATTRIBUTES core_labels_example core_catalog "A" 10 =
        .ok [("core", AttrValue.str "M4"), ("labels", AttrValue.strset ["A", "CORTEX_M4"])]
    ∧ get_labels_for_target core_catalog "A" 10 = .ok ["A"]
    ∧ "CORTEX_M4" ∈ ["A", "CORTEX_M4"]
    ∧ "CORTEX_M4" ≠ "A"
    ∧ getInherits [("core", AttrValue.str "M4")] = [] := by
  exact ⟨rfl, rfl, by decide, by decide, rfl⟩

/-- C6 witness: the amended theorem applied at the linear chain, where the
hierarchy labels are exactly the chain members. -/
theorem C6_witness :
    ∃ build hlabels,
      extract_target_attributes ACCUMULATING_ATTRIBUTES chain_catalog "A" 10 = .ok build
      ∧ get_labels_for_target chain_catalog "A" 10 = .ok hlabels
      ∧ (∀ x, x ∈ hlabels ↔ Relation.ReflTransGen (inherits_step chain_catalog) "A" x)
      ∧ ∃ L, dlookup [("k", AttrValue.str "aval"),
            ("labels", AttrValue.strset ["A", "B", "C"])] "labels"
            = some (AttrValue.strset L)
          ∧ ∀ x, x ∈ L ↔ (Relation.ReflTransGen (inherits_step chain_catalog) "A" x
              ∨ x ∈ extract_core_labels [] (dlookup build "core")) :=
  C6_labels_reachable ACCUMULATING_ATTRIBUTES [] chain_catalog "A" 10 _ rfl

/-- C8.  When some definition reachable from the resolved target lists a
parent name absent from the catalog, the hierarchy walk never succeeds and
never raises TargetAttributesNotFoundError: whenever it terminates it fails
with a plain KeyError naming a missing key (in the fuel model the only other
possible outcome is fuel exhaustion, standing for the non-terminating spin of
the work-queue loop on a cyclic hierarchy). -/
theorem C8_dangling_parent_keymiss (catalog : Catalog) (name m p : String) (dm : Dict)
    (hreach : Relation.ReflTransGen (inherits_step catalog) name m)
    (hm : dlookup catalog m = some dm)
    (hp : p ∈ getInherits dm)
    (hmiss : dlookup catalog p = none) :
    ∀ fuel, ((∃ q, dlookup catalog q = none
        ∧ targets_override_hierarchy catalog name fuel = .error (.keyMiss q))
      ∨ targets_override_hierarchy catalog name fuel = .error .fuelOut)
      ∧ ∀ s, targets_override_hierarchy catalog name fuel ≠ .error (.notFound s) := by
  intro fuel
  cases hr : targets_override_hierarchy catalog name fuel with
  | ok order =>
    exfalso
    obtain ⟨dm2, hdm2, hdm2o⟩ := override_hierarchy_complete catalog name fuel order hr m hreach
    rw [hm] at hdm2
    cases hdm2
    obtain ⟨d0, hd0, hwalk⟩ := override_hierarchy_ok_parts catalog name fuel order hr
    obtain ⟨dp, hdp, _⟩ := override_walk_parents catalog fuel [d0] order hwalk dm hdm2o p hp
    rw [hmiss] at hdp
    exact Option.noConfusion hdp
  | error e =>
    rcases override_hierarchy_error catalog name fuel e hr with h1 | ⟨q, hq, h2⟩
    · subst h1
      exact ⟨Or.inr rfl, fun s hcontra => Err.noConfusion (Except.error.inj hcontra)⟩
    · subst h2
      exact ⟨Or.inl ⟨q, hq, rfl⟩, fun s hcontra => Err.noConfusion (Except.error.inj hcontra)⟩

/-- C8 witness: the theorem applied at the dangling_catalog, whose only
target inherits from the absent name B. -/
theorem C8_witness :
    ((∃ q, dlookup dangling_catalog q = none
        ∧ targets_override_hierarchy dangling_catalog "A" 3 = .error (.keyMiss q))
      ∨ targets_override_hierarchy dangling_catalog "A" 3 = .error .fuelOut)
      ∧ ∀ s, targets_override_hierarchy dangling_catalog "A" 3 ≠ .error (.notFound s) :=
  C8_dangling_parent_keymiss dangling_catalog "A" "A" "B" [("inherits", AttrValue.list ["B"])]
    Relation.ReflTransGen.refl rfl (by decide) rfl 3

theorem push_front_rev_ext {c1 c2 : Catalog} (hext : ∀ k, dlookup c1 k = dlookup c2 k)
    (ms : List String) (q : List Dict) :
    push_front_rev c1 ms q = push_front_rev c2 ms q := by
  induction ms generalizing q with
  | nil => rfl
  | cons p rest ih =>
    unfold push_front_rev
    rw [hext p]
    cases dlookup c2 p with
    | none => rfl
    | some d => exact ih _

theorem push_back_ext {c1 c2 : Catalog} (hext : ∀ k, dlookup c1 k = dlookup c2 k)
    (ms : List String) (q : List Dict) :
    push_back c1 ms q = push_back c2 ms q := by
  induction ms generalizing q with
  | nil => rfl
  | cons p rest ih =>
    unfold push_back
    rw [hext p]
    cases dlookup c2 p with
    | none => rfl
    | some d => exact ih _

theorem override_walk_ext {c1 c2 : Catalog} (hext : ∀ k, dlookup c1 k = dlookup c2 k)
    (fuel : Nat) (q : List Dict) :
    targets_override_hierarchy_walk c1 fuel q = targets_override_hierarchy_walk c2 fuel q := by
  induction fuel generalizing q with
  | zero => cases q <;> rfl
  | succ n ih =>
    cases q with
    | nil => rfl
    | cons current rest =>
      unfold targets_override_hierarchy_walk
      rw [push_front_rev_ext hext]
      cases push_front_rev c2 (getInherits current).reverse rest with
      | error e => rfl
      | ok q2 => simp only [ih]

theorem accumulate_walk_ext {c1 c2 : Catalog} (hext : ∀ k, dlookup c1 k = dlookup c2 k)
    (fuel : Nat) (q : List Dict) :
    targets_accumulate_hierarchy_walk c1 fuel q
      = targets_accumulate_hierarchy_walk c2 fuel q := by
  induction fuel generalizing q with
  | zero => cases q <;> rfl
  | succ n ih =>
    cases q with
    | nil => rfl
    | cons current rest =>
      unfold targets_accumulate_hierarchy_walk
      rw [push_back_ext hext]
      cases push_back c2 (getInherits current) rest with
      | error e => rfl
      | ok q2 => simp only [ih]

theorem override_hierarchy_ext {c1 c2 : Catalog} (hext : ∀ k, dlookup c1 k = dlookup c2 k)
    (name : String) (fuel : Nat) :
    targets_override_hierarchy c1 name fuel = targets_override_hierarchy c2 name fuel := by
  unfold targets_override_hierarchy
  rw [hext name]
  cases dlookup c2 name with
  | none => rfl
  | some d => exact override_walk_ext hext fuel [d]

theorem accumulate_hierarchy_ext {c1 c2 : Catalog} (hext : ∀ k, dlookup c1 k = dlookup c2 k)
    (name : String) (fuel : Nat) :
    targets_accumulate_hierarchy c1 name fuel = targets_accumulate_hierarchy c2 name fuel := by
  unfold targets_accumulate_hierarchy
  rw [hext name]
  cases dlookup c2 name with
  | none => rfl
  | some d => exact accumulate_walk_ext hext fuel [d]

theorem get_overriding_ext (acc : List String) {c1 c2 : Catalog}
    (hext : ∀ k, dlookup c1 k = dlookup c2 k) (name : String) (fuel : Nat) :
    get_overriding_attributes_for_target acc c1 name fuel
      = get_overriding_attributes_for_target acc c2 name fuel := by
  unfold get_overriding_attributes_for_target
  rw [override_hierarchy_ext hext]

theorem get_accumulating_ext (acc : List String) {c1 c2 : Catalog}
    (hext : ∀ k, dlookup c1 k = dlookup c2 k) (name : String) (fuel : Nat) :
    get_accumulating_attributes_for_target acc c1 name fuel
      = get_accumulating_attributes_for_target acc c2 name fuel := by
  unfold get_accumulating_attributes_for_target
  rw [accumulate_hierarchy_ext hext]

theorem get_labels_ext {c1 c2 : Catalog} (hext : ∀ k, dlookup c1 k = dlookup c2 k)
    (name : String) (fuel : Nat) :
    get_labels_for_target c1 name fuel = get_labels_for_target c2 name fuel := by
  unfold get_labels_for_target
  rw [override_hierarchy_ext hext]

theorem extract_ext (acc : List String) {c1 c2 : Catalog}
    (hext : ∀ k, dlookup c1 k = dlookup c2 k) (name : String) (fuel : Nat) :
    extract_target_attributes acc c1 name fuel = extract_target_attributes acc c2 name fuel := by
  unfold extract_target_attributes
  rw [hext name, get_overriding_ext acc hext name fuel, get_accumulating_ext acc hext name fuel]

/-- C7.  Resolution is a pure function of the catalog contents and the name:
it reads the catalog only through key lookup, so two catalogs agreeing on
every lookup resolve identically, and two calls with the same unmodified
catalog and name trivially return equal results.  (A shallow functional
embedding cannot mutate its argument, so the no-mutation half of the claim
holds by construction; this theorem expresses the remaining observable
content, determinism and lookup-extensionality.) -/
theorem C7_pure_resolution (acc : List String) (coreLabels : List (String × List String))
    (c1 c2 : Catalog) (name : String) (fuel : Nat)
    (hext : ∀ k, dlookup c1 k = dlookup c2 k) :
    get_target_attributes acc coreLabels c1 name fuel
      = get_target_attributes acc coreLabels c2 name fuel
    ∧ get_target_attributes acc coreLabels c1 name fuel
      = get_target_attributes acc coreLabels c1 name fuel := by
  refine ⟨?_, rfl⟩
  unfold get_target_attributes
  rw [extract_ext acc hext name fuel, get_labels_ext hext name fuel]

/-- C7 witness: chain2_catalog appends a shadowed duplicate entry, so it is a
different list with identical lookups; resolution agrees on both. -/
theorem C7_witness :
    (∀ k, dlookup chain_catalog k = dlookup chain2_catalog k)
    ∧ chain_catalog ≠ chain2_catalog
    ∧ (get_target_attributes ACCUMULATING_ATTRIBUTES [] chain_catalog "A" 10
        = get_target_attributes ACCUMULATING_ATTRIBUTES [] chain2_catalog "A" 10
      ∧ get_target_attributes ACCUMULATING_ATTRIBUTES [] chain_catalog "A" 10
        = get_target_attributes ACCUMULATING_ATTRIBUTES [] chain_catalog "A" 10) := by
  have hext : ∀ k, dlookup chain_catalog k = dlookup chain2_catalog k := by
    intro k
    unfold chain2_catalog chain_catalog
    by_cases h1 : "A" = k <;> by_cases h2 : "B" = k <;> by_cases h3 : "C" = k <;>
      simp [dlookup, h1, h2, h3]
  exact ⟨hext, by decide,
    C7_pure_resolution ACCUMULATING_ATTRIBUTES [] chain_catalog chain2_catalog "A" 10 hext⟩

theorem extract_missing (acc : List String) (catalog : Catalog) (name : String) (fuel : Nat)
    (h : dlookup catalog name = none) :
    extract_target_attributes acc catalog name fuel = .error (.notFound name) := by
  unfold extract_target_attributes
  rw [h]

theorem get_target_attributes_missing (acc : List String)
    (coreLabels : List (String × List String)) (catalog : Catalog) (name : String)
    (fuel : Nat) (h : dlookup catalog name = none) :
    get_target_attributes acc coreLabels catalog name fuel = .error (.notFound name) := by
  unfold get_target_attributes
  rw [extract_missing acc catalog name fuel h]

/-- C9.  The claim as frozen says every build-attribute caller passes the
board_type of the target to the resolver, naming in particular
get_target_build_attributes of module mbed_targets.mbed_targets; that
function however passes board_name.  Amended: get_build_attributes_by_mbed_target
(and get_target_build_attributes of module mbed_targets.mbed_target)
resolve with board_type, while get_target_build_attributes of module
mbed_targets.mbed_targets resolves with board_name: with a board_type absent
from the catalog and a resolvable board_name, the former two fail with the
wrapped not-found error for the board_type and the latter succeeds. -/
theorem C9_caller_name_choice (acc : List String) (coreLabels : List (String × List String))
    (catalog : Catalog) (t : MbedTarget) (fuel : Nat) (res : Dict)
    (hbt : dlookup catalog t.board_type = none)
    (hbn : get_target_attributes acc coreLabels catalog t.board_name fuel = .ok res) :
    get_target_build_attributes acc coreLabels catalog t fuel = .ok res
    ∧ mbed_target_get_target_build_attributes acc coreLabels catalog t fuel
        = .error (.buildAttributesError (.notFound t.board_type))
    ∧ get_build_attributes_by_mbed_target acc coreLabels catalog t fuel
        = .error (.buildAttributesError (.notFound t.board_type)) := by
  refine ⟨?_, ?_, ?_⟩
  · unfold get_target_build_attributes
    rw [hbn]
    rfl
  · unfold mbed_target_get_target_build_attributes
    rw [get_target_attributes_missing acc coreLabels catalog t.board_type fuel hbt]
    rfl
  · unfold get_build_attributes_by_mbed_target get_build_attributes_by_board_type from_board_type
    rw [get_target_attributes_missing acc coreLabels catalog t.board_type fuel hbt]
    rfl

/-- C9 counterexample.  At a catalog keyed by the board_name of t_example,
get_target_build_attributes of module mbed_targets.mbed_targets succeeds,
while resolving the board_type (as the claim asserts it does) fails: the two
computations differ. -/
theorem C9_counterexample :
    t_example.board_type = "BT"
    ∧ t_example.board_name = "BN"
    ∧ get_target_build_attributes ACCUMULATING_ATTRIBUTES [] bn_catalog t_example 10 =
        .ok [("a", AttrValue.str "1"), ("labels", AttrValue.strset ["BN"])]
    ∧ wrap_target_attr_errors (get_target_attributes ACCUMULATING_ATTRIBUTES [] bn_catalog
        t_example.board_type 10) = .error (.buildAttributesError (.notFound "BT"))
    ∧ get_target_build_attributes ACCUMULATING_ATTRIBUTES [] bn_catalog t_example 10 ≠
        wrap_target_attr_errors (get_target_attributes ACCUMULATING_ATTRIBUTES [] bn_catalog
          t_example.board_type 10) :=
  ⟨rfl, rfl, rfl, rfl, fun h => Except.noConfusion h⟩

/-- C9 witness: the amended theorem applied at t_example and bn_catalog. -/
theorem C9_witness :
    get_target_build_attributes ACCUMULATING_ATTRIBUTES [] bn_catalog t_example 10 =
        .ok [("a", AttrValue.str "1"), ("labels", AttrValue.strset ["BN"])]
    ∧ mbed_target_get_target_build_attributes ACCUMULATING_ATTRIBUTES [] bn_catalog t_example 10
        = .error (.buildAttributesError (.notFound t_example.board_type))
    ∧ get_build_attributes_by_mbed_target ACCUMULATING_ATTRIBUTES [] bn_catalog t_example 10
        = .error (.buildAttributesError (.notFound t_example.board_type)) :=
  C9_caller_name_choice ACCUMULATING_ATTRIBUTES [] bn_catalog t_example 10 _ rfl rfl

/-- C10.  The labels of a resolved target are the hierarchy-derived labels
unioned with the CORE_LABELS entries recorded for the resolved core in the
metadata mapping (the bundled metadata file content, passed as a parameter):
when the core is a non-empty string present in the mapping its entries are
unioned in, and when the core is absent, the empty string, or not a key of
the mapping, the contribution is empty and the labels are the hierarchy
labels alone. -/
theorem C10_core_label_union (acc : List String) (coreLabels : List (String × List String))
    (catalog : Catalog) (name : String) (fuel : Nat) (res : Dict)
    (hres : get_target_attributes acc coreLabels catalog name fuel = .ok res) :
    ∃ build hlabels L,
      extract_target_attributes acc catalog name fuel = .ok build
      ∧ get_labels_for_target catalog name fuel = .ok hlabels
      ∧ dlookup res "labels" = some (.strset L)
      ∧ (∀ s, s ≠ "" → dlookup build "core" = some (.str s) →
          ∀ x, x ∈ L ↔ (x ∈ hlabels ∨ x ∈ ((dlookup coreLabels s).getD [])))
      ∧ (dlookup build "core" = none → ∀ x, x ∈ L ↔ x ∈ hlabels)
      ∧ (dlookup build "core" = some (.str "") → ∀ x, x ∈ L ↔ x ∈ hlabels)
      ∧ (∀ s, dlookup build "core" = some (.str s) → dlookup coreLabels s = none →
          ∀ x, x ∈ L ↔ x ∈ hlabels) := by
  obtain ⟨build, hlabels, hb, hlab, hres2⟩ :=
    get_target_attributes_ok_parts acc coreLabels catalog name fuel res hres
  subst hres2
  refine ⟨build, hlabels,
    set_union hlabels (extract_core_labels coreLabels (dlookup build "core")),
    hb, hlab, by rw [dlookup_dict_set, if_pos rfl], ?_, ?_, ?_, ?_⟩
  · intro s hs hcore x
    rw [mem_set_union, hcore]
    have hb2 : (s == "") = false := beq_eq_false_iff_ne.mpr hs
    have hcl : extract_core_labels coreLabels (some (.str s)) = (dlookup coreLabels s).getD [] := by
      simp [extract_core_labels, pyTruthy, hb2]
    rw [hcl]
  · intro hcore x
    rw [mem_set_union, hcore]
    simp [extract_core_labels]
  · intro hcore x
    rw [mem_set_union, hcore]
    simp [extract_core_labels, pyTruthy]
  · intro s hcore hmiss x
    rw [mem_set_union, hcore]
    by_cases hs : s = ""
    · subst hs
      simp [extract_core_labels, pyTruthy]
    · have hb2 : (s == "") = false := beq_eq_false_iff_ne.mpr hs
      have hcl : extract_core_labels coreLabels (some (.str s)) =
          (dlookup coreLabels s).getD [] := by
        simp [extract_core_labels, pyTruthy, hb2]
      rw [hcl, hmiss]
      simp

/-- C10 witness: the theorem applied at the core_catalog with the example
metadata mapping; the truthy core M4 contributes CORTEX_M4 to the labels. -/
theorem C10_witness :
    get_target_attributes ACCUMULATING_ATTRIBUTES core_labels_example core_catalog "A" 10 =
        .ok [("core", AttrValue.str "M4"), ("labels", AttrValue.strset ["A", "CORTEX_M4"])]
    ∧ ∃ build hlabels L,
      extract_target_attributes ACCUMULATING_ATTRIBUTES core_catalog "A" 10 = .ok build
      ∧ get_labels_for_target core_catalog "A" 10 = .ok hlabels
      ∧ dlookup [("core", AttrValue.str "M4"),
          ("labels", AttrValue.strset ["A", "CORTEX_M4"])] "labels" = some (.strset L)
      ∧ (∀ s, s ≠ "" → dlookup build "core" = some (.str s) →
          ∀ x, x ∈ L ↔ (x ∈ hlabels ∨ x ∈ ((dlookup core_labels_example s).getD [])))
      ∧ (dlookup build "core" = none → ∀ x, x ∈ L ↔ x ∈ hlabels)
      ∧ (dlookup build "core" = some (.str "") → ∀ x, x ∈ L ↔ x ∈ hlabels)
      ∧ (∀ s, dlookup build "core" = some (.str s) → dlookup core_labels_example s = none →
          ∀ x, x ∈ L ↔ x ∈ hlabels) :=
  ⟨rfl, C10_core_label_union ACCUMULATING_ATTRIBUTES core_labels_example core_catalog
    "A" 10 _ rfl⟩

end MbedTargets

